import Mathlib

/-!
Shallow embedding of the PDF split/merge engine of `src/server.js`
(`/api/split` and `/api/merge` handlers) and verification of its
specification.  Pages are modelled by their 0-based index in the source
document; an output document is the list of source indices it copies.
Strings are processed as their character lists, with structural models
of the JS `split`, `trim` and `includes` string operations.
-/

/-- JS `s.split(sep)` for a one-character separator: boundary separators
produce empty fields, and the empty string yields a single empty field. -/
def splitOnChar (sep : Char) : List Char → List (List Char)
  | [] => [[]]
  | c :: rest =>
    let r := splitOnChar sep rest
    if c = sep then [] :: r
    else (c :: r.headD []) :: r.tail

/-- JS `s.trim()`: strip leading and trailing whitespace. -/
def trimChars (cs : List Char) : List Char :=
  ((cs.dropWhile Char.isWhitespace).reverse.dropWhile Char.isWhitespace).reverse

/-- Numeric value of a decimal digit character, `none` otherwise. -/
def decVal (c : Char) : Option Nat :=
  if c.isDigit then some (c.toNat - 48) else none

/-- Numeric value of a hexadecimal digit character, `none` otherwise. -/
def hexVal (c : Char) : Option Nat :=
  if c.isDigit then some (c.toNat - 48)
  else if 'a' ≤ c ∧ c ≤ 'f' then some (c.toNat - 87)
  else if 'A' ≤ c ∧ c ≤ 'F' then some (c.toNat - 55)
  else none

/-- Accumulate leading digits, stopping at the first non-digit character
(the tail behaviour of JS `parseInt`). -/
def digitsAcc (val : Char → Option Nat) (base : Nat) : List Char → Nat → Nat
  | [], acc => acc
  | c :: cs, acc =>
    match val c with
    | some v => digitsAcc val base cs (acc * base + v)
    | none => acc

/-- Parse a non-empty run of leading digits; `none` when the first
character is not a digit. -/
def leadingDigits (val : Char → Option Nat) (base : Nat) : List Char → Option Nat
  | [] => none
  | c :: cs =>
    match val c with
    | some v => some (digitsAcc val base cs v)
    | none => none

/-- JS `parseInt(s)` with no radix argument: leading whitespace skipped,
optional sign, optional `0x`/`0X` hexadecimal prefix, then the longest
run of leading digits; `none` models NaN (no digits at all). -/
def parseIntJS (s : List Char) : Option Int :=
  let cs := trimChars s
  let signed : Bool × List Char :=
    match cs with
    | '-' :: r => (true, r)
    | '+' :: r => (false, r)
    | r => (false, r)
  let mag : Option Nat :=
    match signed.2 with
    | '0' :: c :: r =>
      if c = 'x' ∨ c = 'X' then leadingDigits hexVal 16 r
      else leadingDigits decVal 10 signed.2
    | r => leadingDigits decVal 10 r
  mag.map (fun m => if signed.1 then -(m : Int) else (m : Int))

/-- Ascending run of integers `a, a+1, …, b` (empty when `b < a`): the
closed form of a `for (p = a; p <= b; p++)` counting loop. -/
def intsFromTo (a b : Int) : List Int :=
  (List.range (b + 1 - a).toNat).map (fun (k : Nat) => a + (k : Int))

/-- Embeds the copy loop `for (let p = start; p <= end && p < totalPages; p++)`
of the range branch of `/api/split`: both tests are upper bounds on an
ascending counter, so the loop enumerates `start, …, min end (totalPages - 1)`. -/
def intervalIndices (start e : Int) (totalPages : Nat) : List Int :=
  intsFromTo start (min e ((totalPages : Int) - 1))

/-- Range branch of `/api/split` for a token `a-b`:
`const [start, end] = range.split('-').map(n => parseInt(n.trim()) - 1)`
followed by the copy loop. -/
def resolveInterval (a b : Int) (totalPages : Nat) : List Int :=
  intervalIndices (a - 1) (b - 1) totalPages

/-- Single-page branch of `/api/split`:
`const pageNum = parseInt(range) - 1; if (pageNum < totalPages) { copy }`.
Note the branch tests only the upper bound. -/
def resolveSingle (n : Int) (totalPages : Nat) : List Int :=
  if n - 1 < (totalPages : Int) then [n - 1] else []

/-- Resolution of one trimmed range token, as in the `/api/split` loop body:
a token containing `-` takes the interval branch (each side parsed with
`parseInt(side.trim()) - 1`; a NaN bound makes the loop run zero times,
modelled by `none`), any other token the single-page branch (NaN fails
the `pageNum < totalPages` test). -/
def resolveToken (t : List Char) (totalPages : Nat) : List Int :=
  if t.contains '-' then
    match parseIntJS (trimChars ((splitOnChar '-' t).getD 0 [])),
        parseIntJS (trimChars ((splitOnChar '-' t).getD 1 [])) with
    | some a, some b => resolveInterval a b totalPages
    | _, _ => []
  else
    match parseIntJS t with
    | some n => resolveSingle n totalPages
    | none => []

/-- `/api/split` range mode: `pageRanges.split(',').map(r => r.trim())`,
then one output document per token, in order. -/
def splitByRange (pageRanges : String) (totalPages : Nat) : List (List Int) :=
  ((splitOnChar ',' pageRanges.toList).map trimChars).map (fun t => resolveToken t totalPages)

/-- `Math.ceil(totalPages / parts)` on naturals (for `parts = 0` the value
is never used: the part loop runs zero times). -/
def pagesPerPart (totalPages parts : Nat) : Nat := (totalPages + parts - 1) / parts

/-- `/api/split` size mode: part `i` copies pages
`i*pagesPerPart, …, min (i*pagesPerPart + pagesPerPart) totalPages - 1`. -/
def splitBySize (totalPages parts : Nat) : List (List Nat) :=
  (List.range parts).map (fun i =>
    let startPage := i * pagesPerPart totalPages parts
    let endPage := min (startPage + pagesPerPart totalPages parts) totalPages
    (List.range (endPage - startPage)).map (fun k => startPage + k))

/-- `/api/merge` copy loop: for each file, every page (in original order)
is appended to the merged document. -/
def mergePages (docs : List (List α)) : List α :=
  docs.foldl (fun acc d => acc ++ d) []

/-- `/api/merge` handler: rejects fewer than two files with a 400
response, otherwise merges. -/
def mergeHandler (files : List (List α)) : Except String (List α) :=
  if files.length < 2 then .error "At least 2 files required for merging"
  else .ok (mergePages files)

/-- JS truthiness of an optional string request field
(`undefined` and the empty string are falsy). -/
def truthyStr : Option String → Bool
  | none => false
  | some s => !s.toList.isEmpty

/-- `parseInt(numParts)` used as the part-loop iteration count:
NaN and negative counts give a loop that runs zero times. -/
def sizeCount (numParts : String) : Nat :=
  match parseIntJS numParts.toList with
  | some n => n.toNat
  | none => 0

/-- Mode dispatch of `/api/split`:
`if (splitOption === 'pages' && pageRanges) … else if (splitOption === 'size'
&& numParts) …`; when neither guard holds `outputFiles` stays empty. -/
def splitHandler (splitOption : String) (pageRanges numParts : Option String)
    (totalPages : Nat) : List (List Int) :=
  if splitOption == "pages" && truthyStr pageRanges then
    splitByRange (pageRanges.getD "") totalPages
  else if splitOption == "size" && truthyStr numParts then
    (splitBySize totalPages (sizeCount (numParts.getD ""))).map
      (fun g => g.map (fun (p : Nat) => (p : Int)))
  else []

/-- The `/api/split` endpoint: a 400 error only when no file was uploaded;
otherwise the dispatch result is zipped and answered with success
(`Split into N files`), `N` being the length of the returned list. -/
def splitEndpoint (hasFile : Bool) (splitOption : String) (pageRanges numParts : Option String)
    (totalPages : Nat) : Except String (List (List Int)) :=
  if !hasFile then .error "No file uploaded"
  else .ok (splitHandler splitOption pageRanges numParts totalPages)

/-- `chainCovers a total specs`: the (1-based, inclusive) interval specs
start at page `a`, are contiguous and non-empty, and end exactly at page
`total`, so together they cover every page exactly once. -/
def chainCovers (a : Int) (total : Nat) : List (Int × Int) → Bool
  | [] => a == (total : Int) + 1
  | s :: rest => s.1 == a && decide (s.1 ≤ s.2) && chainCovers (s.2 + 1) total rest

/-- Sequential fallible page copies for one output document; the first
failing copy aborts the part. -/
def copyGroup (copy : α → Except String β) : List α → Except String (List β)
  | [] => .ok []
  | p :: ps =>
    match copy p with
    | .error e => .error e
    | .ok q =>
      match copyGroup copy ps with
      | .error e => .error e
      | .ok rest => .ok (q :: rest)

/-- The `/api/split` part loop with fallible page copies: each completed
part is saved to `downloads/` before the next iteration begins; a failing
copy aborts the loop, leaving the parts already written on disk, and the
error reaches the catch block. Returns the artifacts on disk and the
error, if any. -/
def runSplitParts (copy : α → Except String β) : List (List α) → List (List β) × Option String
  | [] => ([], none)
  | g :: gs =>
    match copyGroup copy g with
    | .error e => ([], some e)
    | .ok part =>
      (part :: (runSplitParts copy gs).1, (runSplitParts copy gs).2)

/-- The `/api/merge` copy loop with fallible page copies. -/
def mergeCopyAll (copy : α → Except String α) : List (List α) → Except String (List α)
  | [] => .ok []
  | d :: ds =>
    match copyGroup copy d with
    | .error e => .error e
    | .ok part =>
      match mergeCopyAll copy ds with
      | .error e => .error e
      | .ok rest => .ok (part ++ rest)

/-- Artifacts left by `/api/merge`: the merged file is written only after
the whole copy loop succeeded, so failure leaves nothing. -/
def runMergeArtifacts (copy : α → Except String α) (docs : List (List α)) :
    List (List α) × Option String :=
  match mergeCopyAll copy docs with
  | .ok m => ([m], none)
  | .error e => ([], some e)

/-- A page-copy that fails exactly on page index 5. -/
def failCopy5 : Int → Except String Int :=
  fun p => if p = 5 then .error "copy failed" else .ok p

/-- Every resolved index in every page group lies below the page count. -/
def groupsBounded (total : Nat) (gs : List (List Int)) : Prop :=
  ∀ g ∈ gs, ∀ p ∈ g, p < (total : Int)

/-- `groupsBounded` for the size branch, whose indices are naturals. -/
def groupsBoundedN (total : Nat) (gs : List (List Nat)) : Prop :=
  ∀ g ∈ gs, ∀ p ∈ g, p < total

/-! ### Lemmas about `intsFromTo` -/

theorem intsFromTo_eq_nil (a b : Int) (h : b < a) : intsFromTo a b = [] := by
  unfold intsFromTo
  have h0 : (b + 1 - a).toNat = 0 := by omega
  rw [h0]
  rfl

theorem intsFromTo_eq_cons (a b : Int) (h : a ≤ b) :
    intsFromTo a b = a :: intsFromTo (a + 1) b := by
  unfold intsFromTo
  have h1 : (b + 1 - a).toNat = (b + 1 - (a + 1)).toNat + 1 := by omega
  rw [h1, List.range_succ_eq_map, List.map_cons, List.map_map]
  refine congrArg₂ List.cons (by simp) ?_
  exact List.map_congr_left (fun k _ => by simp [Function.comp]; omega)

theorem mem_intsFromTo (a b p : Int) : p ∈ intsFromTo a b ↔ a ≤ p ∧ p ≤ b := by
  unfold intsFromTo
  simp only [List.mem_map, List.mem_range]
  constructor
  · rintro ⟨k, hk, rfl⟩
    omega
  · rintro ⟨h1, h2⟩
    exact ⟨(p - a).toNat, by omega, by omega⟩

theorem intsFromTo_map_sub_one (a b : Int) :
    (intsFromTo a b).map (fun p => p - 1) = intsFromTo (a - 1) (b - 1) := by
  unfold intsFromTo
  rw [List.map_map, show (b - 1 + 1 - (a - 1)).toNat = (b + 1 - a).toNat by omega]
  exact List.map_congr_left (fun k _ => by simp [Function.comp]; omega)

theorem intsFromTo_filter_lt (T : Int) :
    ∀ (n : Nat) (a b : Int), (b + 1 - a).toNat = n →
      (intsFromTo a b).filter (fun p => decide (p < T)) = intsFromTo a (min b (T - 1)) := by
  intro n
  induction n with
  | zero =>
    intro a b hn
    have hba : b < a := by omega
    rw [intsFromTo_eq_nil a b hba, intsFromTo_eq_nil a (min b (T - 1)) (by omega)]
    rfl
  | succ m ih =>
    intro a b hn
    have hab : a ≤ b := by omega
    rw [intsFromTo_eq_cons a b hab, List.filter_cons, ih (a + 1) b (by omega)]
    by_cases haT : a < T
    · rw [intsFromTo_eq_cons a (min b (T - 1)) (by omega)]
      simp [haT]
    · rw [intsFromTo_eq_nil (a + 1) (min b (T - 1)) (by omega),
        intsFromTo_eq_nil a (min b (T - 1)) (by omega)]
      simp [haT]

theorem intsFromTo_append (c : Int) :
    ∀ (n : Nat) (a b : Int), (b + 1 - a).toNat = n → a ≤ b + 1 → b ≤ c →
      intsFromTo a b ++ intsFromTo (b + 1) c = intsFromTo a c := by
  intro n
  induction n with
  | zero =>
    intro a b hn h1 h2
    have hba : a = b + 1 := by omega
    rw [intsFromTo_eq_nil a b (by omega), hba, List.nil_append]
  | succ m ih =>
    intro a b hn h1 h2
    have hab : a ≤ b := by omega
    rw [intsFromTo_eq_cons a b hab, List.cons_append,
      ih (a + 1) b (by omega) (by omega) h2,
      intsFromTo_eq_cons a c (by omega)]

/-! ### Lemmas about `mergePages` -/

theorem foldl_append_eq (docs : List (List α)) :
    ∀ acc : List α, docs.foldl (fun acc d => acc ++ d) acc = acc ++ docs.flatten := by
  induction docs with
  | nil => intro acc; simp [mergePages]
  | cons d ds ih => intro acc; simp [ih, List.append_assoc]

theorem mergePages_eq_join (docs : List (List α)) : mergePages docs = docs.flatten := by
  unfold mergePages
  rw [foldl_append_eq docs []]
  rfl

/-! ### Lemmas about `splitBySize` -/

theorem splitBySize_sizes (T P : Nat) :
    (splitBySize T P).map List.length =
      (List.range P).map
        (fun i => min (i * pagesPerPart T P + pagesPerPart T P) T - i * pagesPerPart T P) := by
  unfold splitBySize
  rw [List.map_map]
  exact List.map_congr_left (fun i _ => by simp)

theorem sum_min_sizes (c T : Nat) :
    ∀ P : Nat, ((List.range P).map (fun i => min (i * c + c) T - i * c)).sum = min (P * c) T := by
  intro P
  induction P with
  | zero => simp
  | succ n ih =>
    rw [List.range_succ, List.map_append, List.sum_append, ih]
    simp only [List.map_cons, List.map_nil, List.sum_cons, List.sum_nil]
    have hmul : (n + 1) * c = n * c + c := by ring
    rw [hmul]
    omega

theorem le_mul_pagesPerPart (T P : Nat) (hP : 1 ≤ P) : T ≤ P * pagesPerPart T P := by
  unfold pagesPerPart
  have h1 := Nat.div_add_mod (T + P - 1) P
  have h2 : (T + P - 1) % P < P := Nat.mod_lt _ (by omega)
  generalize hx : P * ((T + P - 1) / P) = x at h1 ⊢
  omega

theorem splitBySize_getD (T P i : Nat) (hi : i < P) :
    (splitBySize T P).getD i [] =
      (List.range (min (i * pagesPerPart T P + pagesPerPart T P) T - i * pagesPerPart T P)).map
        (fun k => i * pagesPerPart T P + k) := by
  unfold splitBySize
  rw [List.getD_eq_getElem?_getD, List.getElem?_map, List.getElem?_range hi]
  rfl

/-! ### Bounds lemmas -/

theorem resolveInterval_bounded (a b : Int) (total : Nat) :
    ∀ p ∈ resolveInterval a b total, p < (total : Int) := by
  intro p hp
  unfold resolveInterval intervalIndices at hp
  rw [mem_intsFromTo] at hp
  have h := min_le_right (b - 1) ((total : Int) - 1)
  omega

theorem resolveToken_bounded (t : List Char) (total : Nat) :
    ∀ p ∈ resolveToken t total, p < (total : Int) := by
  intro p hp
  unfold resolveToken at hp
  split at hp
  · split at hp
    · exact resolveInterval_bounded _ _ total p hp
    · simp at hp
  · split at hp
    · unfold resolveSingle at hp
      split at hp
      · simp at hp
        omega
      · simp at hp
    · simp at hp

theorem splitBySize_part_bounded (T P : Nat) :
    ∀ g ∈ splitBySize T P, ∀ p ∈ g, p < T := by
  intro g hg p hp
  unfold splitBySize at hg
  simp only [List.mem_map, List.mem_range] at hg
  obtain ⟨i, _, rfl⟩ := hg
  simp only [List.mem_map, List.mem_range] at hp
  obtain ⟨k, hk, rfl⟩ := hp
  have h := min_le_right (i * pagesPerPart T P + pagesPerPart T P) T
  omega

/-! ### Lemmas about `chainCovers` -/

theorem chainCovers_le (total : Nat) :
    ∀ (specs : List (Int × Int)) (a : Int),
      chainCovers a total specs = true → a ≤ (total : Int) + 1 := by
  intro specs
  induction specs with
  | nil =>
    intro a h
    simp [chainCovers] at h
    omega
  | cons s rest ih =>
    intro a h
    simp only [chainCovers, Bool.and_eq_true, beq_iff_eq, decide_eq_true_eq] at h
    obtain ⟨⟨h1, h2⟩, h3⟩ := h
    have := ih (s.2 + 1) h3
    omega

theorem chainCovers_flatten (total : Nat) :
    ∀ (specs : List (Int × Int)) (a : Int), 1 ≤ a →
      chainCovers a total specs = true →
      (specs.map (fun s => resolveInterval s.1 s.2 total)).flatten =
        intsFromTo (a - 1) ((total : Int) - 1) := by
  intro specs
  induction specs with
  | nil =>
    intro a _ h
    simp only [chainCovers, beq_iff_eq] at h
    subst h
    rw [List.map_nil, List.flatten_nil, intsFromTo_eq_nil _ _ (by omega)]
  | cons s rest ih =>
    intro a ha h
    simp only [chainCovers, Bool.and_eq_true, beq_iff_eq, decide_eq_true_eq] at h
    obtain ⟨⟨h1, h2⟩, h3⟩ := h
    have hb : s.2 + 1 ≤ (total : Int) + 1 := chainCovers_le total rest (s.2 + 1) h3
    rw [List.map_cons, List.flatten_cons, ih (s.2 + 1) (by omega) h3]
    unfold resolveInterval intervalIndices
    rw [min_eq_left (by omega), show s.2 + 1 - 1 = (s.2 - 1) + 1 by ring,
      intsFromTo_append ((total : Int) - 1) _ (s.1 - 1) (s.2 - 1) rfl (by omega) (by omega), h1]

/-! ### Remaining helper lemmas -/

theorem runSplitParts_spec {α β : Type} (copy : α → Except String β) :
    ∀ groups : List (List α),
      ((runSplitParts copy groups).2 = none →
        (runSplitParts copy groups).1.length = groups.length) ∧
      ((runSplitParts copy groups).2 ≠ none →
        (runSplitParts copy groups).1.length < groups.length) ∧
      (∀ i, i < (runSplitParts copy groups).1.length →
        copyGroup copy (groups.getD i []) = .ok ((runSplitParts copy groups).1.getD i [])) := by
  intro groups
  induction groups with
  | nil =>
    refine ⟨fun _ => rfl, fun h => absurd rfl h, fun i hi => absurd hi (by simp [runSplitParts])⟩
  | cons g gs ih =>
    obtain ⟨ih1, ih2, ih3⟩ := ih
    rcases hcg : copyGroup copy g with e | part
    · refine ⟨?_, ?_, ?_⟩
      · intro h
        exfalso
        revert h
        simp [runSplitParts, hcg]
      · intro _
        simp [runSplitParts, hcg]
      · intro i hi
        exfalso
        revert hi
        simp [runSplitParts, hcg]
    · refine ⟨?_, ?_, ?_⟩
      · intro h
        simp only [runSplitParts, hcg] at h ⊢
        rw [List.length_cons, List.length_cons, ih1 h]
      · intro h
        simp only [runSplitParts, hcg] at h ⊢
        rw [List.length_cons, List.length_cons]
        exact Nat.succ_lt_succ (ih2 h)
      · intro i hi
        simp only [runSplitParts, hcg] at hi ⊢
        cases i with
        | zero => simpa using hcg
        | succ j =>
          rw [List.length_cons] at hi
          simpa using ih3 j (Nat.lt_of_succ_lt_succ hi)

theorem runMergeArtifacts_error {α : Type} (copy : α → Except String α)
    (docs : List (List α)) (e : String)
    (h : (runMergeArtifacts copy docs).2 = some e) :
    (runMergeArtifacts copy docs).1 = [] := by
  unfold runMergeArtifacts at h ⊢
  rcases hm : mergeCopyAll copy docs with e2 | m
  · rfl
  · rw [hm] at h
    simp at h

/-! ### Claim theorems -/

/-- C1: for every interval token `Interval(a,b)` and page count `totalPages`,
the range branch resolves to exactly the 0-based list
`[i-1 for i in a..b if i-1 < totalPages]` (1-based inclusive user bounds);
there is no validation that `a <= b`, and for `a > b` the group is empty. -/
theorem c1_interval_resolution (a b : Int) (total : Nat) :
    resolveInterval a b total =
      ((intsFromTo a b).filter (fun i => decide (i - 1 < (total : Int)))).map (fun i => i - 1) ∧
    (b < a → resolveInterval a b total = []) := by
  constructor
  · have h1 : ((intsFromTo a b).filter (fun i => decide (i - 1 < (total : Int)))).map
        (fun i => i - 1) =
        ((intsFromTo a b).map (fun i => i - 1)).filter (fun p => decide (p < (total : Int))) := by
      rw [List.filter_map]
      rfl
    rw [h1, intsFromTo_map_sub_one,
      intsFromTo_filter_lt ((total : Int)) _ (a - 1) (b - 1) rfl]
    rfl
  · intro hba
    unfold resolveInterval intervalIndices
    have h := min_le_left (b - 1) ((total : Int) - 1)
    exact intsFromTo_eq_nil (a - 1) _ (by omega)

/-- C1 witness: `5-2` (reversed bounds) resolves to the empty group. -/
theorem c1_interval_resolution_witness : resolveInterval 5 2 10 = [] :=
  (c1_interval_resolution 5 2 10).2 (by decide)

/-- C2 counterexample: the claim says resolution of `Single(n)` is `[]` for
every `n < 1`, but at `n = 0`, `totalPages = 5` the single-page branch passes
its only test (`n - 1 < totalPages`) and produces the group `[-1]`. -/
theorem c2_single_negative_cex : (0 : Int) < 1 ∧ resolveSingle 0 5 ≠ [] := by decide

/-- C2 (amended): `Single(n)` resolves to `[n-1]` whenever `n - 1 < totalPages`
(so also for every `n < 1`, yielding a negative index), and to `[]` exactly
when `n > totalPages`. -/
theorem c2_single_resolution_amended (n : Int) (total : Nat) :
    (n - 1 < (total : Int) → resolveSingle n total = [n - 1]) ∧
    ((total : Int) < n → resolveSingle n total = []) := by
  unfold resolveSingle
  constructor
  · intro h
    rw [if_pos h]
  · intro h
    rw [if_neg (by omega)]

/-- C2 witness: `Single(0)` over 5 pages gives `[-1]`; `Single(7)` gives `[]`. -/
theorem c2_single_resolution_amended_witness :
    resolveSingle 0 5 = [-1] ∧ resolveSingle 7 5 = [] :=
  ⟨((c2_single_resolution_amended 0 5).1 (by decide)).trans (by decide),
   (c2_single_resolution_amended 7 5).2 (by decide)⟩

/-- C3 counterexample: for `T = 5`, `P = 4` the parts have sizes `[2, 2, 1, 0]`
while `ceil(5/4) = 2`: part index 2 — which is not the last part — has 1 page,
refuting "each part's page count equals ceil(T/P) except possibly the last". -/
theorem c3_size_claim_cex :
    (splitBySize 5 4).map List.length = [2, 2, 1, 0] ∧
    pagesPerPart 5 4 = 2 ∧
    ¬ (∀ i, i < 3 → ((splitBySize 5 4).map List.length).getD i 0 = pagesPerPart 5 4) := by
  decide

/-- C3 (amended): split-by-size with `P ≥ 1` parts over `T` pages yields exactly
`P` documents whose page counts sum to exactly `T`; a part wholly before the
page supply runs out has exactly `ceil(T/P)` pages, a part starting at or past
`T` is empty, and the single straddling part holds the remainder — so the
short and empty parts are the trailing ones, not necessarily only the last. -/
theorem c3_size_split_amended (T P : Nat) (hP : 1 ≤ P) :
    (splitBySize T P).length = P ∧
    ((splitBySize T P).map List.length).sum = T ∧
    (∀ i, i < P → (i + 1) * pagesPerPart T P ≤ T →
      ((splitBySize T P).getD i []).length = pagesPerPart T P) ∧
    (∀ i, i < P → T ≤ i * pagesPerPart T P →
      ((splitBySize T P).getD i []).length = 0) ∧
    (∀ i, i < P → i * pagesPerPart T P < T → T < (i + 1) * pagesPerPart T P →
      ((splitBySize T P).getD i []).length = T - i * pagesPerPart T P) := by
  refine ⟨by simp [splitBySize], ?_, ?_, ?_, ?_⟩
  · rw [splitBySize_sizes, sum_min_sizes (pagesPerPart T P) T P]
    have h := le_mul_pagesPerPart T P hP
    omega
  · intro i hi hle
    rw [splitBySize_getD T P i hi]
    simp only [List.length_map, List.length_range]
    have h : (i + 1) * pagesPerPart T P = i * pagesPerPart T P + pagesPerPart T P := by ring
    omega
  · intro i hi hge
    rw [splitBySize_getD T P i hi]
    simp only [List.length_map, List.length_range]
    omega
  · intro i hi h1 h2
    rw [splitBySize_getD T P i hi]
    simp only [List.length_map, List.length_range]
    have h : (i + 1) * pagesPerPart T P = i * pagesPerPart T P + pagesPerPart T P := by ring
    omega

/-- C3 witness: split-by-size over 10 pages with 4 parts gives 4 documents
carrying all 10 pages. -/
theorem c3_size_split_amended_witness :
    (splitBySize 10 4).length = 4 ∧ ((splitBySize 10 4).map List.length).sum = 10 :=
  ⟨(c3_size_split_amended 10 4 (by decide)).1, (c3_size_split_amended 10 4 (by decide)).2.1⟩

/-- C4: merging an ordered sequence of at least two documents yields one
document holding every page of every source, in document order and original
page order (the concatenation), with total length the sum of the lengths. -/
theorem c4_merge_concatenates {α : Type} (docs : List (List α)) (_h : 2 ≤ docs.length) :
    mergePages docs = docs.flatten ∧
    (mergePages docs).length = (docs.map List.length).sum := by
  refine ⟨mergePages_eq_join docs, ?_⟩
  rw [mergePages_eq_join]
  exact List.length_flatten docs

/-- C4 witness: merging a 2-page document with a 1-page document gives the
3-page concatenation. -/
theorem c4_merge_concatenates_witness :
    mergePages [[0, 1], [2]] = [0, 1, 2] ∧ (mergePages [[0, 1], [2]]).length = 3 := by
  have h := c4_merge_concatenates [[0, 1], [2]] (by decide)
  exact ⟨h.1.trans (by decide), h.2.trans (by decide)⟩

/-- C5: split-by-range produces one output document per comma-separated token,
in parse order (so exactly N output documents for N tokens, empty groups
included), and a token that fails to parse as a number resolves to an empty
group for its position instead of aborting the request. -/
theorem c5_one_output_per_token (expr : String) (total : Nat) :
    (splitByRange expr total).length = (splitOnChar ',' expr.toList).length ∧
    (∀ i, i < (splitOnChar ',' expr.toList).length →
      (splitByRange expr total).getD i [] =
        resolveToken (trimChars ((splitOnChar ',' expr.toList).getD i [])) total) ∧
    (∀ t : List Char, t.contains '-' = false → parseIntJS t = none →
      resolveToken t total = []) ∧
    (∀ t : List Char, t.contains '-' = true →
      parseIntJS (trimChars ((splitOnChar '-' t).getD 0 [])) = none ∨
        parseIntJS (trimChars ((splitOnChar '-' t).getD 1 [])) = none →
      resolveToken t total = []) := by
  refine ⟨by simp [splitByRange], ?_, ?_, ?_⟩
  · intro i hi
    have h1 : (splitByRange expr total)[i]? =
        some (resolveToken (trimChars ((splitOnChar ',' expr.toList)[i])) total) := by
      unfold splitByRange
      rw [List.getElem?_map, List.getElem?_map, List.getElem?_eq_getElem hi]
      rfl
    rw [List.getD_eq_getElem?_getD, h1, List.getD_eq_getElem?_getD,
      List.getElem?_eq_getElem hi, Option.getD_some, Option.getD_some]
  · intro t hc hp
    unfold resolveToken
    rw [hc, hp]
    rfl
  · intro t hc hd
    unfold resolveToken
    rw [hc]
    rcases h1 : parseIntJS (trimChars ((splitOnChar '-' t).getD 0 [])) with _ | a
    · rfl
    · rcases hd with h | h
      · rw [h] at h1
        cases h1
      · rw [h]
        rfl

/-- C5 witness: `"1-3, 5, 7-10"` yields 3 outputs; the unparseable token
`"abc"` resolves to an empty group. -/
theorem c5_one_output_per_token_witness :
    (splitByRange "1-3, 5, 7-10" 10).length = 3 ∧ resolveToken "abc".toList 10 = [] :=
  ⟨((c5_one_output_per_token "1-3, 5, 7-10" 10).1).trans (by decide),
   (c5_one_output_per_token "" 10).2.2.1 "abc".toList (by decide) (by decide)⟩

/-- C6: splitting by a contiguous range set that covers every page exactly
once and merging the parts in the same order reproduces the original page
sequence `0, …, totalPages - 1` exactly. -/
theorem c6_split_merge_roundtrip (total : Nat) (specs : List (Int × Int))
    (h : chainCovers 1 total specs = true) :
    mergePages (specs.map (fun s => resolveInterval s.1 s.2 total)) =
      (List.range total).map (fun (k : Nat) => (k : Int)) := by
  rw [mergePages_eq_join, chainCovers_flatten total specs 1 (by omega) h]
  unfold intsFromTo
  rw [show ((total : Int) - 1 + 1 - (1 - 1)).toNat = total by omega]
  exact List.map_congr_left (fun k _ => by omega)

/-- C6 witness: the covering ranges `1-2, 3, 4-5` of a 5-page document merge
back to pages `0..4`. -/
theorem c6_split_merge_roundtrip_witness :
    mergePages ([(1, 2), (3, 3), (4, 5)].map (fun s => resolveInterval s.1 s.2 5)) =
      [0, 1, 2, 3, 4] := by
  have h := c6_split_merge_roundtrip 5 [(1, 2), (3, 3), (4, 5)] (by decide)
  exact h.trans (by decide)

/-- C7: in both split modes no page group references an index at or beyond the
source's total page count — such indices are dropped by the loop bounds, never
reported as errors. -/
theorem c7_no_index_beyond_count (expr : String) (total T P : Nat) :
    groupsBounded total (splitByRange expr total) ∧ groupsBoundedN T (splitBySize T P) := by
  constructor
  · intro g hg p hp
    unfold splitByRange at hg
    simp only [List.mem_map] at hg
    obtain ⟨t, _, rfl⟩ := hg
    exact resolveToken_bounded t total p hp
  · exact splitBySize_part_bounded T P

/-- C7 witness: the groups of `"9-12"` over a 10-page document stay below 10. -/
theorem c7_no_index_beyond_count_witness :
    groupsBounded 10 (splitByRange "9-12" 10) :=
  (c7_no_index_beyond_count "9-12" 10 0 0).1

/-- C8: a merge request with fewer than two files fails with the validation
error naming the two-file requirement, and produces no output document. -/
theorem c8_merge_requires_two_files {α : Type} (files : List (List α))
    (h : files.length < 2) :
    mergeHandler files = .error "At least 2 files required for merging" := by
  unfold mergeHandler
  rw [if_pos h]

/-- C8 witness: a single-document merge request is rejected. -/
theorem c8_merge_requires_two_files_witness :
    mergeHandler [[0, 1, 2]] = .error "At least 2 files required for merging" :=
  c8_merge_requires_two_files [[0, 1, 2]] (by decide)

/-- C9 counterexample: the claim says a mid-loop copy failure emits no
artifact, but splitting `"1,6"` over a 10-page document with a copy that
fails on page index 5 aborts the request while the already-written first
part file persists on disk. -/
theorem c9_aborted_split_keeps_artifact_cex :
    (runSplitParts failCopy5 (splitByRange "1,6" 10)).2 = some "copy failed" ∧
    (runSplitParts failCopy5 (splitByRange "1,6" 10)).1 = [[0]] := by decide

/-- C9 (amended): a failing page copy aborts the request — the error reaches
the catch block, no further part is produced (fewer artifacts than groups),
and no archive or success response is emitted — but part files fully written
in earlier iterations persist on disk; every persisted part is complete
(its whole page group copied), never half-built.  For merge, whose single
write happens after the loop, failure leaves no artifact at all. -/
theorem c9_abort_keeps_only_complete_parts {α β γ : Type} (copy : α → Except String β)
    (groups : List (List α)) (mcopy : γ → Except String γ) (docs : List (List γ)) :
    ((runSplitParts copy groups).2 = none →
      (runSplitParts copy groups).1.length = groups.length) ∧
    ((runSplitParts copy groups).2 ≠ none →
      (runSplitParts copy groups).1.length < groups.length) ∧
    (∀ i, i < (runSplitParts copy groups).1.length →
      copyGroup copy (groups.getD i []) = .ok ((runSplitParts copy groups).1.getD i [])) ∧
    (∀ e, (runMergeArtifacts mcopy docs).2 = some e → (runMergeArtifacts mcopy docs).1 = []) :=
  ⟨(runSplitParts_spec copy groups).1, (runSplitParts_spec copy groups).2.1,
   (runSplitParts_spec copy groups).2.2, fun e h => runMergeArtifacts_error mcopy docs e h⟩

/-- C9 witness: with the failing copy of the counterexample, the split run
stops short of producing all parts, and a failing merge leaves nothing. -/
theorem c9_abort_keeps_only_complete_parts_witness :
    (runSplitParts failCopy5 (splitByRange "1,6" 10)).1.length <
      (splitByRange "1,6" 10).length ∧
    (runMergeArtifacts failCopy5 [[5]]).1 = [] :=
  ⟨(c9_abort_keeps_only_complete_parts failCopy5 (splitByRange "1,6" 10)
      failCopy5 [[5]]).2.1 (by decide),
   (c9_abort_keeps_only_complete_parts failCopy5 (splitByRange "1,6" 10)
      failCopy5 [[5]]).2.2.2 "copy failed" (by decide)⟩

/-- C10: a split request whose mode matches neither supported mode, or whose
required mode parameter is missing or falsy (no range expression in range
mode, a part count parsing to 0 in size mode) is not rejected: the endpoint
succeeds and the archive packs zero part files. -/
theorem c10_split_fallback_zero_parts (so : String) (pr np : Option String) (total : Nat)
    (h : (so ≠ "pages" ∧ so ≠ "size") ∨ (so = "pages" ∧ truthyStr pr = false) ∨
      (so = "size" ∧ truthyStr np = false) ∨
      (so = "size" ∧ ∃ s, np = some s ∧ parseIntJS s.toList = some 0)) :
    splitEndpoint true so pr np total = .ok [] := by
  unfold splitEndpoint splitHandler
  rcases h with ⟨h1, h2⟩ | ⟨h1, h2⟩ | ⟨h1, h2⟩ | ⟨h1, s, hs, h0⟩
  · rw [beq_eq_false_iff_ne.mpr h1, beq_eq_false_iff_ne.mpr h2]
    rfl
  · subst h1
    rw [h2]
    rfl
  · subst h1
    rw [h2]
    rfl
  · subst h1
    subst hs
    have hne : truthyStr (some s) = true := by
      unfold truthyStr
      rcases hsl : s.toList with _ | ⟨c, cs⟩
      · exfalso
        rw [hsl] at h0
        exact absurd h0 (by decide)
      · have hd : s.data = c :: cs := hsl
        simp [hd]
    have hsc : sizeCount s = 0 := by
      unfold sizeCount
      rw [h0]
      rfl
    simp only [Option.getD_some]
    rw [hne, hsc]
    rfl

/-- C10 witness: an unknown mode selector yields a successful response with an
empty archive. -/
theorem c10_split_fallback_zero_parts_witness :
    splitEndpoint true "bogus" none none 3 = .ok [] :=
  c10_split_fallback_zero_parts "bogus" none none 3 (Or.inl ⟨by decide, by decide⟩)
